import Mathlib

/-!
Verification of the job-scraper's cleaning and reconciliation logic.

The development shallowly embeds the data-transforming parts of
`job_scraper.py`:

* the keyword / company / description spam filters and `clean_results`
  (filter, dedupe on `job_url`, sort by `date_posted` descending);
* the master-sheet reconciliation inside `save_two_sheets_to_google_sheets`
  (read existing master, concat with today's batch, `drop_duplicates` on
  `job_url`, fall back to today's batch when the read fails or the master
  is empty);
* the retry loop `retry_batch_update` (exponential backoff on HTTP 429/5xx
  and timeouts, bounded attempts, immediate raise otherwise).

Strings are modelled as lists of code points (`List Nat`); `str.lower` is
the ASCII case map used by all comparisons in the script.  DataFrames are
modelled as lists of `JobRecord` rows; `date_posted` is the parsed
timestamp, `none` standing for NaT (missing or unparseable).

Note: `job_scraper.py` does not import `spam_filters.py`; the lists that
`clean_results` actually consults are the ones defined in
`job_scraper.py` itself, and those are the lists embedded here.
-/

namespace JobHunt

/-- Strings as lists of Unicode code points. -/
abbrev Str := List Nat

/-- Code points of a string literal. -/
def strOf (s : String) : Str := s.toList.map Char.toNat

/-- ASCII lowercase of one code point (Python `str.lower` on the ASCII
letters occurring in the script's data). -/
def lowerNat (n : Nat) : Nat := if 65 ≤ n ∧ n ≤ 90 then n + 32 else n

/-- Lowercase of a whole string. -/
def lowerStr (s : Str) : Str := s.map lowerNat

/-- Whitespace code points stripped by Python `str.strip`. -/
def isSpaceNat (n : Nat) : Bool :=
  n == 32 || n == 9 || n == 10 || n == 13 || n == 11 || n == 12

/-- Python `str.strip`: drop leading and trailing whitespace. -/
def stripStr (s : Str) : Str :=
  ((s.dropWhile isSpaceNat).reverse.dropWhile isSpaceNat).reverse

/-- Does `needle` occur at the very beginning of `hay`? -/
def startsWithStr : Str → Str → Bool
  | [], _ => true
  | _ :: _, [] => false
  | a :: as, b :: bs => a == b && startsWithStr as bs

/-- Python's `needle in hay` substring test. -/
def substrIn (needle : Str) : Str → Bool
  | [] => needle.isEmpty
  | b :: t => startsWithStr needle (b :: t) || substrIn needle t

/-- SPAM_KEYWORDS of `job_scraper.py` (title blocklist). -/
def SPAM_KEYWORDS : List String := [
  "senior", "sr.", "sr ", "principal", "lead", "staff",
  "director", "head of", "vice president", "vp", "chief",
  "executive", "distinguished", "fellow",
  "intermediate", "5+ years", "5 years", "6+ years", "7+ years",
  "8+ years", "10+ years", "experienced professional",
  "manager", "mgr", "management", "supervisor", "team lead",
  "architect", "architecture lead", "solutions architect",
  "enterprise architect", "technical architect",
  "civil engineer", "mechanical engineer", "electrical engineer",
  "fpga engineer", "hardware engineer", "embedded systems",
  "industrial engineer", "chemical engineer", "process engineer",
  "broadcast", "manufacturing science", "production engineer", "III",
  "p.eng", "p. eng", "professional engineer", "cpa", "chartered",
  "licensed professional", "registered engineer", "cfa",
  "secret clearance", "top secret", "security clearance required",
  "clearance eligible", "defense", "military clearance",
  "bilingual french", "fluent french", "french required",
  "french mandatory", "bilinguisme", "bilingue",
  "product manager", "product management", "business analyst",
  "project manager", "program manager", "scrum master",
  "account manager", "sales", "marketing", "hr specialist",
  "people services", "recruitment", "talent acquisition",
  "Java Developer", "Video Editor", "Videographer", "devops lead",
  "site reliability lead", "infrastructure architect",
  "database administrator", "dba", "system administrator",
  "network engineer", "telecommunications", "telecom",
  "quality assurance lead", "qa lead", "test lead", "Android",
  "research scientist", "research lead", "postdoc", "post-doctoral",
  "intern", "internship", "co-op", "co op", "student position",
  "summer student", "coop", "stage", "stagiaire",
  "clinical", "healthcare practitioner", "medical", "pharmaceutical",
  "nursing", "therapy", "counseling",
  "portfolio manager", "investment analyst", "financial advisor",
  "wealth management",
  "professor", "instructor", "teacher", "tutor", "lecturer",
  "curriculum developer", "education specialist"]

/-- SPAM_COMPANIES of `job_scraper.py` (company blocklist). -/
def SPAM_COMPANIES : List String := [
  "Prime Jobs", "Next Jobs", "Jobs Ai", "Get Hired", "Crossover",
  "Get Jobs", "Jobsmast", "Hiring Hub", "Tech Jobs Fast"]

/-- SPAM_DESCRIPTION_KEYWORDS of `job_scraper.py` (description blocklist). -/
def SPAM_DESCRIPTION_KEYWORDS : List String := [
  "weekly payout",
  "quick money"]

/-- Python `spam_keywords_lower = [kw.lower() for kw in SPAM_KEYWORDS]`. -/
def spamKeywordsLower : List Str := SPAM_KEYWORDS.map (fun kw => lowerStr (strOf kw))

/-- Python `spam_companies_lower`. -/
def spamCompaniesLower : List Str := SPAM_COMPANIES.map (fun kw => lowerStr (strOf kw))

/-- Python `spam_desc_lower`. -/
def spamDescLower : List Str := SPAM_DESCRIPTION_KEYWORDS.map (fun kw => lowerStr (strOf kw))

/-- Python `contains_spam_title` of `clean_results`: lowercase the text and
test each lowered keyword for substring occurrence. -/
def contains_spam_title (text : Str) : Bool :=
  spamKeywordsLower.any (fun kw => substrIn kw (lowerStr text))

/-- Python `contains_spam_description` of `clean_results`. -/
def contains_spam_description (text : Str) : Bool :=
  spamDescLower.any (fun kw => substrIn kw (lowerStr text))

/-- Python `company_is_spam` of `clean_results`. -/
def company_is_spam (text : Str) : Bool :=
  spamCompaniesLower.any (fun kw => substrIn kw (lowerStr text))

/-- One row of the scraped DataFrame, restricted to the columns the
cleaning and reconciliation logic inspects.  `date_posted` is the parsed
timestamp (`pd.to_datetime(..., errors = coerce)`), `none` for NaT. -/
structure JobRecord where
  title : Str
  description : Str
  company : Str
  job_url : Str
  date_posted : Option Int
deriving DecidableEq, Repr

/-- The keep-mask of `clean_results`: a row survives when neither the
title, the description nor the company matches its blocklist. -/
def passes_filters (r : JobRecord) : Bool :=
  !(contains_spam_title r.title ||
    contains_spam_description r.description ||
    company_is_spam r.company)

/-- The keep/reject decision of the cleaning filter on a raw row
(`clean_results` strips the title before applying the mask). -/
def keepDecision (r : JobRecord) : Bool :=
  passes_filters { r with title := stripStr r.title }

/-- Pandas `drop_duplicates(subset = [job_url])`: keep the first row seen
for each URL.  `seen` accumulates the URLs already emitted. -/
def dedupAux (seen : List Str) : List JobRecord → List JobRecord
  | [] => []
  | r :: rs =>
    if r.job_url ∈ seen then dedupAux seen rs
    else r :: dedupAux (r.job_url :: seen) rs

/-- Deduplicate a row list on `job_url`, keeping first occurrences. -/
def dedupByUrl (rs : List JobRecord) : List JobRecord := dedupAux [] rs

/-- Sort key of `sort_values(date_posted, ascending = False)`:
`r` may precede `s` when `r`'s date is at least `s`'s, dated rows before
NaT rows (pandas puts NaT last). -/
def leDate (r s : JobRecord) : Bool :=
  match r.date_posted, s.date_posted with
  | some a, some b => b ≤ a
  | some _, none => true
  | none, some _ => false
  | none, none => true

/-- Insert a row into a list sorted by `leDate`. -/
def insertByDate (r : JobRecord) : List JobRecord → List JobRecord
  | [] => [r]
  | s :: ss => if leDate r s then r :: s :: ss else s :: insertByDate r ss

/-- Comparison sort on the `date_posted` key (descending, NaT last),
modelling `df.sort_values(date_posted, ascending = False)`. -/
def sortByDateDesc (rs : List JobRecord) : List JobRecord :=
  rs.foldr insertByDate []

/-- Is a row list sorted by `date_posted` descending with NaT rows last? -/
def isSortedByDateDesc : List JobRecord → Bool
  | [] => true
  | [_] => true
  | r :: s :: t => leDate r s && isSortedByDateDesc (s :: t)

/-- Python `clean_results`: strip titles, drop rows matching a blocklist,
deduplicate on `job_url` (first kept), sort newest first. -/
def clean_results (df : List JobRecord) : List JobRecord :=
  sortByDateDesc
    (dedupByUrl
      ((df.map (fun r => { r with title := stripStr r.title })).filter passes_filters))

/-- The row-level semantics of `save_two_sheets_to_google_sheets`:
given today's batch and the result of reading the Master worksheet
(`none` when `get_all_records` raised), return the rows written to the
Today worksheet and to the Master worksheet.  The code writes today's
batch verbatim to the Today sheet; for the Master it concatenates the
existing rows with today's and drops duplicate `job_url`s, falling back
to today's batch alone when the master is empty or unreadable. -/
def save_two_sheets (today : List JobRecord) (masterRead : Option (List JobRecord)) :
    List JobRecord × List JobRecord :=
  let todaySheet := today
  let masterSheet :=
    match masterRead with
    | some existing => if existing.isEmpty then today else dedupByUrl (existing ++ today)
    | none => today
  (todaySheet, masterSheet)

/-- Outcome of one `batchUpdate` attempt, as `retry_batch_update`
classifies it: success, an `HttpError` carrying an optional
`status_code`, a non-`HttpError` exception whose message mentions a
timeout, or any other exception. -/
inductive SheetOutcome where
  | success
  | httpError (status : Option Nat)
  | timeoutExc
  | otherExc
deriving DecidableEq, Repr

/-- Is the outcome one that `retry_batch_update` retries?  `HttpError`
with a truthy status of 429 or 5xx, or a timeout-message exception. -/
def isTransientOutcome : SheetOutcome → Bool
  | .success => false
  | .httpError none => false
  | .httpError (some s) => s != 0 && (s == 429 || (500 ≤ s && s < 600))
  | .timeoutExc => true
  | .otherExc => false

/-- Result of running the retry loop: the returned value or the raised
outcome, the number of attempts executed, and the delays slept between
attempts. -/
structure RetryTrace where
  result : Except SheetOutcome Unit
  attemptsUsed : Nat
  sleeps : List ℚ
deriving Repr

/-- Body of `retry_batch_update`'s `for attempt in range(1, max_retries + 1)`
loop: `out` gives the outcome of each (1-indexed) attempt, `remaining`
counts attempts still permitted, `delay` is the current backoff.  A
transient failure before the final attempt sleeps `delay`, doubles it and
retries; anything else ends the loop. -/
def retryAux (out : Nat → SheetOutcome) (attempt : Nat) :
    Nat → ℚ → RetryTrace
  | 0, _ => ⟨.ok (), 0, []⟩
  | remaining + 1, delay =>
    let o := out attempt
    if o = .success then ⟨.ok (), 1, []⟩
    else if isTransientOutcome o && remaining != 0 then
      let t := retryAux out (attempt + 1) remaining (delay * 2)
      ⟨t.result, t.attemptsUsed + 1, delay :: t.sleeps⟩
    else ⟨.error o, 1, []⟩

/-- Python `retry_batch_update(service, spreadsheet_id, body, max_retries = 3,
initial_delay = 2.0)`, abstracted over the attempt outcomes. -/
def retry_batch_update (out : Nat → SheetOutcome) (max_retries : Nat := 3)
    (initial_delay : ℚ := 2) : RetryTrace :=
  retryAux out 1 max_retries initial_delay

/-! Definitions following the spec's words, for comparison with the code:
the reconciler's delta, word-boundary keyword matching, and company-name
normalization.  These are deliberately transcribed from the specification
text, not from the source. -/

/-- specDelta follows the spec's words: the delta is every record of the
batch whose identity URL is absent from the master's identity-URL set. -/
def specDelta (batch master : List JobRecord) : List JobRecord :=
  batch.filter (fun r => decide (r.job_url ∉ master.map (fun s => s.job_url)))

/-- Word-constituent code points (letters, digits, underscore). -/
def isWordNat (n : Nat) : Bool :=
  (48 ≤ n && n ≤ 57) || (65 ≤ n && n ≤ 90) || (97 ≤ n && n ≤ 122) || n == 95

/-- Maximal word-character runs of a string (`cur` holds the current run
reversed). -/
def wordsAux (cur : Str) : Str → List Str
  | [] => if cur.isEmpty then [] else [cur.reverse]
  | c :: rest =>
    if isWordNat c then wordsAux (c :: cur) rest
    else if cur.isEmpty then wordsAux [] rest
    else cur.reverse :: wordsAux [] rest

/-- The words of a string, split at non-word characters. -/
def wordsOf (s : Str) : List Str := wordsAux [] s

/-- specKeywordMatch follows the spec's words: a keyword containing
whitespace matches as a contiguous substring, while a single-token
keyword matches only at word boundaries, i.e. as a whole word of the
text. -/
def specKeywordMatch (kw text : Str) : Bool :=
  if kw.any (fun c => isSpaceNat c) then substrIn kw text
  else (wordsOf text).contains kw

/-- Alphanumeric code points (everything else counts as punctuation or
whitespace for the spec's company normalization). -/
def isAlnumNat (n : Nat) : Bool :=
  (48 ≤ n && n ≤ 57) || (65 ≤ n && n ≤ 90) || (97 ≤ n && n ≤ 122)

/-- Maximal runs of non-space characters. -/
def spaceSplitAux (cur : Str) : Str → List Str
  | [] => if cur.isEmpty then [] else [cur.reverse]
  | c :: rest =>
    if c == 32 then
      (if cur.isEmpty then spaceSplitAux [] rest else cur.reverse :: spaceSplitAux [] rest)
    else spaceSplitAux (c :: cur) rest

/-- Split a string on spaces, discarding empty fields. -/
def spaceSplit (s : Str) : List Str := spaceSplitAux [] s

/-- specNormalizeCompany follows the spec's words: lowercase, replace
punctuation by spaces, collapse whitespace. -/
def specNormalizeCompany (s : Str) : Str :=
  List.intercalate [32] (spaceSplit (s.map (fun c => if isAlnumNat c then lowerNat c else 32)))

/-! Concrete records used by the scenario theorems.  All titles,
descriptions and companies below pass the blocklists unless said
otherwise. -/

/-- Record A of the spec's mixed-run scenario. -/
def recA : JobRecord :=
  ⟨strOf "data engineer", strOf "role a", strOf "Shopify", strOf "https://jobs/a", some 300⟩

/-- Record B of the spec's mixed-run scenario. -/
def recB : JobRecord :=
  ⟨strOf "ml engineer", strOf "role b", strOf "Wealthsimple", strOf "https://jobs/b", some 200⟩

/-- Record C of the spec's mixed-run scenario. -/
def recC : JobRecord :=
  ⟨strOf "ai engineer", strOf "role c", strOf "Cohere", strOf "https://jobs/c", some 100⟩

/-- A record sharing C's identity URL but differing elsewhere. -/
def recC2 : JobRecord :=
  ⟨strOf "ai engineer ii", strOf "role c again", strOf "Cohere", strOf "https://jobs/c", some 90⟩

/-- An old record already in the master (for the ordering scenario). -/
def recOld : JobRecord :=
  ⟨strOf "data engineer", strOf "old role", strOf "Shopify", strOf "https://jobs/old", some 100⟩

/-- A newer record arriving in today's batch (for the ordering scenario). -/
def recNew : JobRecord :=
  ⟨strOf "ml engineer", strOf "new role", strOf "Cohere", strOf "https://jobs/new", some 200⟩

/-! Helper lemmas about lowercasing, substring occurrence, deduplication
and the date ordering. -/

theorem lowerNat_lowerNat (n : Nat) : lowerNat (lowerNat n) = lowerNat n := by
  unfold lowerNat
  by_cases h : 65 ≤ n ∧ n ≤ 90
  · rw [if_pos h, if_neg (by omega : ¬ (65 ≤ n + 32 ∧ n + 32 ≤ 90))]
  · rw [if_neg h, if_neg h]

theorem lowerStr_lowerStr (s : Str) : lowerStr (lowerStr s) = lowerStr s := by
  unfold lowerStr
  rw [List.map_map]
  exact List.map_congr_left fun n _ => lowerNat_lowerNat n

theorem lowerStr_append (a b : Str) : lowerStr (a ++ b) = lowerStr a ++ lowerStr b :=
  List.map_append lowerNat a b

theorem isSpaceNat_lowerNat (n : Nat) : isSpaceNat (lowerNat n) = isSpaceNat n := by
  unfold lowerNat
  by_cases h : 65 ≤ n ∧ n ≤ 90
  · have h1 : isSpaceNat (n + 32) = false := by
      simp only [isSpaceNat, Bool.or_eq_false_iff, beq_eq_false_iff_ne, ne_eq]
      omega
    have h2 : isSpaceNat n = false := by
      simp only [isSpaceNat, Bool.or_eq_false_iff, beq_eq_false_iff_ne, ne_eq]
      omega
    simp [h, h1, h2]
  · simp [h]

theorem stripStr_lowerStr (s : Str) : stripStr (lowerStr s) = lowerStr (stripStr s) := by
  have hcong : ∀ t : Str, t.dropWhile (isSpaceNat ∘ lowerNat) = t.dropWhile isSpaceNat := by
    intro t
    congr 1
    funext n
    exact isSpaceNat_lowerNat n
  unfold stripStr lowerStr
  rw [List.dropWhile_map, hcong, ← List.map_reverse, List.dropWhile_map, hcong,
    ← List.map_reverse]

theorem startsWithStr_append_self (kw s : Str) : startsWithStr kw (kw ++ s) = true := by
  induction kw with
  | nil => rfl
  | cons a as ih => simp [startsWithStr, ih]

theorem substrIn_append_middle (kw p s : Str) : substrIn kw (p ++ kw ++ s) = true := by
  induction p with
  | nil =>
    rw [List.nil_append]
    cases kw with
    | nil =>
      cases s with
      | nil => rfl
      | cons b t => rfl
    | cons a as =>
      have h1 : substrIn (a :: as) ((a :: as) ++ s) =
          (startsWithStr (a :: as) ((a :: as) ++ s) || substrIn (a :: as) (as ++ s)) := by
        rw [List.cons_append]
        rfl
      rw [h1, startsWithStr_append_self, Bool.true_or]
  | cons c p' ih =>
    have h1 : substrIn kw ((c :: p') ++ kw ++ s) =
        (startsWithStr kw ((c :: p') ++ kw ++ s) || substrIn kw (p' ++ kw ++ s)) := by
      rw [List.cons_append]
      rfl
    rw [h1, ih, Bool.or_true]

theorem lowerStr_fix_of_mem_lowered {L : List String} {kw : Str}
    (h : kw ∈ L.map (fun k => lowerStr (strOf k))) : lowerStr kw = kw := by
  rcases List.mem_map.mp h with ⟨k, _, rfl⟩
  exact lowerStr_lowerStr (strOf k)

theorem contains_spam_title_congr {a b : Str} (h : lowerStr a = lowerStr b) :
    contains_spam_title a = contains_spam_title b := by
  unfold contains_spam_title
  rw [h]

theorem contains_spam_description_congr {a b : Str} (h : lowerStr a = lowerStr b) :
    contains_spam_description a = contains_spam_description b := by
  unfold contains_spam_description
  rw [h]

theorem company_is_spam_congr {a b : Str} (h : lowerStr a = lowerStr b) :
    company_is_spam a = company_is_spam b := by
  unfold company_is_spam
  rw [h]

/-- URLs recorded as seen after `dedupAux seen xs` has processed `xs`. -/
def seenAfter (seen : List Str) : List JobRecord → List Str
  | [] => seen
  | r :: rs =>
    if r.job_url ∈ seen then seenAfter seen rs
    else seenAfter (r.job_url :: seen) rs

theorem dedupAux_append (seen : List Str) (xs ys : List JobRecord) :
    dedupAux seen (xs ++ ys) = dedupAux seen xs ++ dedupAux (seenAfter seen xs) ys := by
  induction xs generalizing seen with
  | nil => simp [dedupAux, seenAfter]
  | cons r rs ih =>
    by_cases h : r.job_url ∈ seen
    · simp [dedupAux, seenAfter, h, ih]
    · simp [dedupAux, seenAfter, h, ih]

theorem mem_seenAfter_of_mem {u : Str} {seen : List Str} (xs : List JobRecord)
    (h : u ∈ seen) : u ∈ seenAfter seen xs := by
  induction xs generalizing seen with
  | nil => exact h
  | cons r rs ih =>
    unfold seenAfter
    by_cases hr : r.job_url ∈ seen
    · simp only [if_pos hr]
      exact ih h
    · simp only [if_neg hr]
      exact ih (List.mem_cons_of_mem _ h)

theorem mem_seenAfter_of_mem_urls {u : Str} {xs : List JobRecord} (seen : List Str)
    (h : u ∈ xs.map (fun r => r.job_url)) : u ∈ seenAfter seen xs := by
  induction xs generalizing seen with
  | nil => simp at h
  | cons r rs ih =>
    unfold seenAfter
    rw [List.map_cons, List.mem_cons] at h
    rcases h with hu | hu
    · by_cases hr : r.job_url ∈ seen
      · rw [if_pos hr]
        exact mem_seenAfter_of_mem rs (hu ▸ hr)
      · rw [if_neg hr]
        exact mem_seenAfter_of_mem rs (hu ▸ List.mem_cons_self _ _)
    · by_cases hr : r.job_url ∈ seen
      · rw [if_pos hr]
        exact ih seen hu
      · rw [if_neg hr]
        exact ih _ hu

theorem dedupAux_eq_nil {seen : List Str} {ys : List JobRecord}
    (h : ∀ y ∈ ys, y.job_url ∈ seen) : dedupAux seen ys = [] := by
  induction ys with
  | nil => rfl
  | cons y ys ih =>
    unfold dedupAux
    rw [if_pos (h y (List.mem_cons_self _ _))]
    exact ih fun z hz => h z (List.mem_cons_of_mem _ hz)

theorem dedupAux_eq_self {seen : List Str} {xs : List JobRecord}
    (hnd : (xs.map (fun r => r.job_url)).Nodup)
    (hdisj : ∀ x ∈ xs, x.job_url ∉ seen) : dedupAux seen xs = xs := by
  induction xs generalizing seen with
  | nil => rfl
  | cons r rs ih =>
    unfold dedupAux
    rw [if_neg (hdisj r (List.mem_cons_self _ _))]
    congr 1
    refine ih (by simpa using hnd.of_cons) ?_
    intro x hx
    simp only [List.mem_cons]
    push_neg
    constructor
    · intro hxr
      have : r.job_url ∈ rs.map (fun r => r.job_url) :=
        hxr ▸ List.mem_map_of_mem _ hx
      exact ((List.nodup_cons.mp (by simpa using hnd)).1 this).elim
    · exact hdisj x (List.mem_cons_of_mem _ hx)

theorem mem_of_mem_dedupAux {seen : List Str} {xs : List JobRecord} {r : JobRecord}
    (h : r ∈ dedupAux seen xs) : r ∈ xs := by
  induction xs generalizing seen with
  | nil => simp [dedupAux] at h
  | cons x rs ih =>
    unfold dedupAux at h
    by_cases hx : x.job_url ∈ seen
    · rw [if_pos hx] at h
      exact List.mem_cons_of_mem _ (ih h)
    · rw [if_neg hx] at h
      rcases List.mem_cons.mp h with hr | hr
      · exact hr ▸ List.mem_cons_self _ _
      · exact List.mem_cons_of_mem _ (ih hr)

theorem nodup_dedupAux (seen : List Str) (xs : List JobRecord) :
    ((dedupAux seen xs).map (fun r => r.job_url)).Nodup ∧
      ∀ r ∈ dedupAux seen xs, r.job_url ∉ seen := by
  induction xs generalizing seen with
  | nil => simp [dedupAux]
  | cons x rs ih =>
    unfold dedupAux
    by_cases hx : x.job_url ∈ seen
    · simpa [hx] using ih seen
    · rw [if_neg hx]
      obtain ⟨hnd, hout⟩ := ih (x.job_url :: seen)
      refine ⟨?_, ?_⟩
      · simp only [List.map_cons, List.nodup_cons]
        refine ⟨?_, hnd⟩
        intro hmem
        rcases List.mem_map.mp hmem with ⟨r, hr, hrq⟩
        exact hout r hr (hrq ▸ List.mem_cons_self _ _)
      · intro r hr
        rcases List.mem_cons.mp hr with rfl | hr'
        · exact hx
        · exact fun hc => hout r hr' (List.mem_cons_of_mem _ hc)

theorem leDate_total (r s : JobRecord) : leDate r s = true ∨ leDate s r = true := by
  unfold leDate
  rcases r.date_posted with _ | a <;> rcases s.date_posted with _ | b <;> simp
  exact Int.le_total b a

theorem isSortedByDateDesc_cons {r : JobRecord} {s : JobRecord} {t : List JobRecord} :
    isSortedByDateDesc (r :: s :: t) =
      (leDate r s && isSortedByDateDesc (s :: t)) := rfl

theorem sorted_insertByDate (r : JobRecord) (l : List JobRecord)
    (h : isSortedByDateDesc l = true) :
    isSortedByDateDesc (insertByDate r l) = true := by
  induction l with
  | nil => rfl
  | cons s ss ih =>
    unfold insertByDate
    by_cases hrs : leDate r s = true
    · rw [if_pos hrs, isSortedByDateDesc_cons, hrs, Bool.true_and]
      exact h
    · rw [if_neg hrs]
      have hsr : leDate s r = true := (leDate_total r s).resolve_left hrs
      cases ss with
      | nil => simp [insertByDate, isSortedByDateDesc, hsr]
      | cons u us =>
        have hsu : leDate s u = true := by
          rw [isSortedByDateDesc_cons, Bool.and_eq_true] at h
          exact h.1
        have huus : isSortedByDateDesc (u :: us) = true := by
          rw [isSortedByDateDesc_cons, Bool.and_eq_true] at h
          exact h.2
        have hins := ih huus
        unfold insertByDate at hins ⊢
        by_cases hru : leDate r u = true
        · rw [if_pos hru] at hins ⊢
          rw [isSortedByDateDesc_cons, hsr, Bool.true_and]
          exact hins
        · rw [if_neg hru] at hins ⊢
          rw [isSortedByDateDesc_cons, hsu, Bool.true_and]
          exact hins

theorem sorted_sortByDateDesc (l : List JobRecord) :
    isSortedByDateDesc (sortByDateDesc l) = true := by
  induction l with
  | nil => rfl
  | cons r rs ih => exact sorted_insertByDate r _ ih

theorem dedupByUrl_eq_self {l : List JobRecord}
    (h : (l.map (fun r => r.job_url)).Nodup) : dedupByUrl l = l :=
  dedupAux_eq_self h (fun x _ => List.not_mem_nil x.job_url)

theorem dedupByUrl_self_append (l : List JobRecord)
    (h : (l.map (fun r => r.job_url)).Nodup) : dedupByUrl (l ++ l) = l := by
  unfold dedupByUrl
  rw [dedupAux_append, dedupAux_eq_self h (fun x _ => List.not_mem_nil x.job_url),
    dedupAux_eq_nil (fun y hy => mem_seenAfter_of_mem_urls [] (List.mem_map_of_mem _ hy)),
    List.append_nil]

theorem mem_dedupAux_left {xs ys : List JobRecord} {r : JobRecord}
    (hnd : (xs.map (fun x => x.job_url)).Nodup) (hr : r ∈ xs) :
    r ∈ dedupAux [] (xs ++ ys) := by
  rw [dedupAux_append, dedupAux_eq_self hnd (fun x _ => List.not_mem_nil x.job_url)]
  exact List.mem_append_left _ hr

/-! Theorems settling the claims. -/

/-- C1, counterexample: the claim says the emitted "today's delta"
collection contains exactly the batch records whose `job_url` is absent
from the master, so with master `{A, B}` and batch `{B, C}` it should be
`{C}`.  The code writes the whole batch `{B, C}` to the Today worksheet;
no delta is computed. -/
theorem C1_counterexample :
    specDelta [recB, recC] [recA, recB] = [recC] ∧
    (save_two_sheets [recB, recC] (some [recA, recB])).1 = [recB, recC] ∧
    (save_two_sheets [recB, recC] (some [recA, recB])).1 ≠
      specDelta [recB, recC] [recA, recB] :=
  ⟨by decide, rfl, by decide⟩

/-- C1, amended: for every batch and every master-read result the
collection written to the Today worksheet is the entire batch, not the
delta; only the Master worksheet is reconciled, and in the mixed-run
scenario its identity set does become `{A, B, C}`. -/
theorem C1_today_sheet_is_whole_batch (today : List JobRecord)
    (mr : Option (List JobRecord)) :
    (save_two_sheets today mr).1 = today ∧
    ((save_two_sheets [recB, recC] (some [recA, recB])).2.map (fun r => r.job_url))
      = [recA.job_url, recB.job_url, recC.job_url] :=
  ⟨rfl, by decide⟩

/-- C2, counterexample: the claim says that when the read of the master
fails, the new master still contains every record previously in the
master.  In the code a failed read (`except` branch) makes the combined
collection today's batch alone: a previously stored record `recA` is
absent from the rewritten master. -/
theorem C2_counterexample :
    (save_two_sheets [recC] none).2 = [recC] ∧
    recA ∉ (save_two_sheets [recC] none).2 :=
  ⟨rfl, by decide⟩

/-- C2, amended: a failed master read is not distinguished from a
legitimately empty master — both fall back to writing today's batch
alone, so the history held by the unreadable master is dropped. -/
theorem C2_read_failure_writes_today_only (today : List JobRecord) :
    (save_two_sheets today none).2 = today ∧
    save_two_sheets today none = save_two_sheets today (some []) :=
  ⟨rfl, rfl⟩

/-- C3, counterexample: the claim says a second run with the same batch
yields an empty delta.  The collection emitted as "today's" on the second
run is again the whole batch `[recC]`, not the empty list. -/
theorem C3_counterexample :
    (save_two_sheets [recC] (some ((save_two_sheets [recC] (some [])).2))).1
      = [recC] ∧
    ([recC] : List JobRecord) ≠ [] :=
  ⟨rfl, by decide⟩

/-- C3, amended: re-running with the same batch (with pairwise distinct
`job_url`s) against the master produced by the first run leaves the
master unchanged, but the Today worksheet again receives the whole
batch rather than an empty delta. -/
theorem C3_rerun_master_unchanged (batch : List JobRecord)
    (h : (batch.map (fun r => r.job_url)).Nodup) :
    (save_two_sheets batch (some ((save_two_sheets batch (some [])).2))).2
      = (save_two_sheets batch (some [])).2 ∧
    (save_two_sheets batch (some ((save_two_sheets batch (some [])).2))).1
      = batch := by
  refine ⟨?_, rfl⟩
  show (if batch.isEmpty then batch else dedupByUrl (batch ++ batch)) = batch
  cases hb : batch with
  | nil => rfl
  | cons b bs =>
    rw [if_neg (by simp)]
    exact dedupByUrl_self_append _ (hb ▸ h)

/-- C3, witness: the amended statement applied to the one-record batch
`[recC]`. -/
theorem C3_witness :
    (save_two_sheets [recC] (some ((save_two_sheets [recC] (some [])).2))).2
      = (save_two_sheets [recC] (some [])).2 :=
  (C3_rerun_master_unchanged [recC] (by decide)).1

/-- C4, counterexample: the claim says that for every input — any batch
with repeated `identity_url` values merged into any master — the new
master holds exactly one record per distinct URL.  When the existing
master is empty the code skips deduplication (`combined = today_df`), so
a batch with two records sharing a URL is written with both. -/
theorem C4_counterexample :
    recC.job_url = recC2.job_url ∧
    (save_two_sheets [recC, recC2] (some [])).2 = [recC, recC2] ∧
    ¬ (((save_two_sheets [recC, recC2] (some [])).2.map (fun r => r.job_url)).Nodup) :=
  ⟨by decide, rfl, by decide⟩

/-- C4, amended: when the existing master is nonempty (and itself free of
duplicate URLs), the rewritten master holds exactly one record per
distinct `job_url`, every existing master record is retained unchanged
(first-seen wins, so a later batch record never overwrites it), and every
master row comes from the old master or today's batch.  When the master
is empty or unreadable the batch is written as-is, without the dedup
safety net. -/
theorem C4_first_seen_wins_nonempty_master (existing today : List JobRecord)
    (hne : existing ≠ []) (hnd : (existing.map (fun r => r.job_url)).Nodup) :
    (((save_two_sheets today (some existing)).2.map (fun r => r.job_url)).Nodup) ∧
    (∀ r ∈ existing, r ∈ (save_two_sheets today (some existing)).2) ∧
    (∀ r ∈ (save_two_sheets today (some existing)).2, r ∈ existing ∨ r ∈ today) := by
  have hmaster : (save_two_sheets today (some existing)).2
      = dedupByUrl (existing ++ today) := by
    show (if existing.isEmpty then today else dedupByUrl (existing ++ today)) = _
    cases existing with
    | nil => exact absurd rfl hne
    | cons e es => rw [if_neg (by simp)]
  rw [hmaster]
  refine ⟨(nodup_dedupAux [] _).1, ?_, ?_⟩
  · intro r hr
    exact mem_dedupAux_left hnd hr
  · intro r hr
    exact List.mem_append.mp (mem_of_mem_dedupAux hr)

/-- C4, witness: the amended statement applied to master `[recA]` and
batch `[recB]`. -/
theorem C4_witness :
    (((save_two_sheets [recB] (some [recA])).2.map (fun r => r.job_url)).Nodup) ∧
    recA ∈ (save_two_sheets [recB] (some [recA])).2 :=
  ⟨(C4_first_seen_wins_nonempty_master [recA] [recB] (by decide) (by decide)).1,
   (C4_first_seen_wins_nonempty_master [recA] [recB] (by decide) (by decide)).2.1
     recA (by decide)⟩

/-- C5, counterexample: the claim says the written master is ordered by
`posting_date` descending.  With an old record in the master and a newer
one in today's batch the code writes `[recOld, recNew]` — existing rows
first, today's appended — which is not date-descending. -/
theorem C5_counterexample :
    (save_two_sheets [recNew] (some [recOld])).2 = [recOld, recNew] ∧
    isSortedByDateDesc ((save_two_sheets [recNew] (some [recOld])).2) = false :=
  ⟨by decide, by decide⟩

/-- C5, amended: `clean_results` orders today's batch by `date_posted`
descending with missing/unparseable dates last, but the master is written
as the existing rows followed by today's surviving rows, with no
re-sorting. -/
theorem C5_only_today_batch_sorted :
    (∀ df : List JobRecord, isSortedByDateDesc (clean_results df) = true) ∧
    (∀ existing today : List JobRecord, existing ≠ [] →
      (save_two_sheets today (some existing)).2 = dedupByUrl (existing ++ today)) := by
  refine ⟨fun df => sorted_sortByDateDesc _, ?_⟩
  intro existing today hne
  show (if existing.isEmpty then today else dedupByUrl (existing ++ today)) = _
  cases existing with
  | nil => exact absurd rfl hne
  | cons e es => rw [if_neg (by simp)]

/-- C5, witness: the amended statement applied to a concrete batch and a
concrete nonempty master. -/
theorem C5_witness :
    isSortedByDateDesc (clean_results [recOld, recNew]) = true ∧
    (save_two_sheets [recNew] (some [recOld])).2 = dedupByUrl ([recOld] ++ [recNew]) :=
  ⟨C5_only_today_batch_sorted.1 [recOld, recNew],
   C5_only_today_batch_sorted.2 [recOld] [recNew] (by decide)⟩

/-- A record whose title contains the single-token keyword `intern` only
strictly inside the longer word `International`; description and company
are clean. -/
def recIntl : JobRecord :=
  ⟨strOf "International Data Analyst", strOf "analyze cross-border data",
   strOf "Shopify", strOf "https://jobs/intl", some 10⟩

/-- C6, counterexample: the claim says a single-token keyword matches
only at word boundaries, so a keyword occurring strictly inside a longer
title word does not cause rejection.  The record titled "International
Data Analyst" is rejected by `clean_results` — the keyword `intern`
matches inside `International` — even though under the spec's two match
styles (substring for whitespace keywords, whole-word for single tokens)
no blocklist keyword matches the title. -/
theorem C6_counterexample :
    clean_results [recIntl] = [] ∧
    contains_spam_title recIntl.title = true ∧
    spamKeywordsLower.all
      (fun kw => !(specKeywordMatch kw (lowerStr recIntl.title))) = true :=
  ⟨by decide, by decide, by decide⟩

/-- C6, amended: every keyword, single-token or not, is matched as a
contiguous substring of the lowercased title; any occurrence of a
blocklist keyword — word-bounded or strictly inside a longer word —
causes rejection. -/
theorem C6_substring_matching_for_all_keywords {kw : Str}
    (hkw : kw ∈ spamKeywordsLower) (pre suf : Str) :
    contains_spam_title (pre ++ kw ++ suf) = true := by
  unfold contains_spam_title
  refine List.any_eq_true.mpr ⟨kw, hkw, ?_⟩
  have hfix : lowerStr kw = kw :=
    lowerStr_fix_of_mem_lowered (by simpa [spamKeywordsLower] using hkw)
  rw [lowerStr_append, lowerStr_append, hfix]
  exact substrIn_append_middle _ _ _

/-- C6, witness: the amended statement applied to the keyword `intern`
placed strictly inside a longer word. -/
theorem C6_witness :
    contains_spam_title (strOf "inter" ++ strOf "intern" ++ strOf "ational") = true :=
  C6_substring_matching_for_all_keywords (by decide) (strOf "inter") (strOf "ational")

/-- C7, counterexample: the claim says company comparison normalizes
punctuation away and tests exact membership, making "Prime, Jobs." and
"Prime Jobs" the same blocklisted company.  The code only lowercases and
tests substring containment: the blocklisted spelling is flagged but the
punctuation variant — identical under the spec's normalization — is
not. -/
theorem C7_counterexample :
    specNormalizeCompany (strOf "Prime, Jobs.") = specNormalizeCompany (strOf "Prime Jobs") ∧
    company_is_spam (strOf "Prime Jobs") = true ∧
    company_is_spam (strOf "Prime, Jobs.") = false :=
  ⟨by decide, by decide, by decide⟩

/-- C7, amended: company comparison lowercases both sides and tests
substring containment of the blocklist entry in the company name.  Case
differences therefore never change the verdict, and any company name
containing a blocklisted entry is flagged, but spellings differing in
punctuation are not normalized to each other. -/
theorem C7_lowercase_substring_comparison :
    (∀ a b : Str, lowerStr a = lowerStr b → company_is_spam a = company_is_spam b) ∧
    (∀ kw : Str, kw ∈ spamCompaniesLower → ∀ pre suf : Str,
      company_is_spam (pre ++ kw ++ suf) = true) := by
  refine ⟨fun a b h => company_is_spam_congr h, ?_⟩
  intro kw hkw pre suf
  unfold company_is_spam
  refine List.any_eq_true.mpr ⟨kw, hkw, ?_⟩
  have hfix : lowerStr kw = kw :=
    lowerStr_fix_of_mem_lowered (by simpa [spamCompaniesLower] using hkw)
  rw [lowerStr_append, lowerStr_append, hfix]
  exact substrIn_append_middle _ _ _

/-- C7, witness: the amended statement applied to a concrete case variant
and a concrete company containing a blocklisted entry. -/
theorem C7_witness :
    company_is_spam (strOf "PRIME JOBS") = company_is_spam (strOf "prime jobs") ∧
    company_is_spam (strOf "x" ++ strOf "prime jobs" ++ strOf "y") = true :=
  ⟨C7_lowercase_substring_comparison.1 _ _ (by decide),
   C7_lowercase_substring_comparison.2 (strOf "prime jobs") (by decide)
     (strOf "x") (strOf "y")⟩

/-- A record whose description mentions "6 years" (clean title and
company). -/
def rec6y : JobRecord :=
  ⟨strOf "data engineer", strOf "requires 6 years of experience",
   strOf "Shopify", strOf "https://jobs/6y", some 6⟩

/-- A record whose description mentions "4 years". -/
def rec4y : JobRecord :=
  ⟨strOf "data engineer", strOf "4 years of experience",
   strOf "Shopify", strOf "https://jobs/4y", some 5⟩

/-- A record whose description mentions "4+ years". -/
def rec4py : JobRecord :=
  ⟨strOf "data engineer", strOf "4+ years of experience",
   strOf "Shopify", strOf "https://jobs/4py", some 4⟩

/-- A record whose description mentions "3 years". -/
def rec3y : JobRecord :=
  ⟨strOf "data engineer", strOf "3 years of experience",
   strOf "Shopify", strOf "https://jobs/3y", some 3⟩

/-- A record whose description mentions "3-5 years". -/
def rec35y : JobRecord :=
  ⟨strOf "data engineer", strOf "3-5 years of experience",
   strOf "Shopify", strOf "https://jobs/35y", some 2⟩

/-- A record whose description mentions no experience number at all. -/
def recNoNum : JobRecord :=
  ⟨strOf "data engineer", strOf "experience with data pipelines",
   strOf "Shopify", strOf "https://jobs/nonum", some 1⟩

/-- C8, counterexample: the claim says that under the experience-range
policy a record whose description names no experience number is rejected,
and a "6 years" description is rejected.  `clean_results` keeps both:
the code has no experience-range logic — the description check is a plain
blocklist, and neither description contains a blocklisted phrase. -/
theorem C8_counterexample :
    clean_results [rec6y, recNoNum] = [rec6y, recNoNum] := by decide

/-- C8, amended: there is no experience-range policy and no positive
eligibility match; the description check rejects exactly the records
whose description contains one of the two blocklisted phrases
("weekly payout", "quick money").  In particular the descriptions
"4 years", "4+ years", "3 years", "3-5 years" and "6 years", and a
description with no number at all, are all accepted when title and
company are clean. -/
theorem C8_description_blocklist_only :
    (∀ d : Str, contains_spam_description d =
      (substrIn (strOf "weekly payout") (lowerStr d) ||
        substrIn (strOf "quick money") (lowerStr d))) ∧
    clean_results [rec6y, rec4y, rec4py, rec3y, rec35y, recNoNum]
      = [rec6y, rec4y, rec4py, rec3y, rec35y, recNoNum] := by
  constructor
  · intro d
    show (substrIn (lowerStr (strOf "weekly payout")) (lowerStr d) ||
      (substrIn (lowerStr (strOf "quick money")) (lowerStr d) || false)) = _
    rw [show lowerStr (strOf "weekly payout") = strOf "weekly payout" from by decide,
      show lowerStr (strOf "quick money") = strOf "quick money" from by decide,
      Bool.or_false]
  · decide

theorem retryAux_zero (out : Nat → SheetOutcome) (attempt : Nat) (delay : ℚ) :
    retryAux out attempt 0 delay = ⟨.ok (), 0, []⟩ := rfl

theorem retryAux_succ (out : Nat → SheetOutcome) (attempt R : Nat) (delay : ℚ) :
    retryAux out attempt (R + 1) delay =
      (if out attempt = .success then ⟨.ok (), 1, []⟩
       else if isTransientOutcome (out attempt) && R != 0 then
         ⟨(retryAux out (attempt + 1) R (delay * 2)).result,
          (retryAux out (attempt + 1) R (delay * 2)).attemptsUsed + 1,
          delay :: (retryAux out (attempt + 1) R (delay * 2)).sleeps⟩
       else ⟨.error (out attempt), 1, []⟩) := rfl

theorem retryAux_spec (out : Nat → SheetOutcome) (remaining : Nat) :
    ∀ (attempt : Nat) (delay : ℚ),
      ((retryAux out attempt remaining delay).attemptsUsed ≤ remaining) ∧
      (1 ≤ remaining → 1 ≤ (retryAux out attempt remaining delay).attemptsUsed) ∧
      ((retryAux out attempt remaining delay).sleeps =
        (List.range ((retryAux out attempt remaining delay).attemptsUsed - 1)).map
          (fun i => delay * 2 ^ i)) ∧
      (∀ e, (retryAux out attempt remaining delay).result = .error e →
        e = out (attempt + (retryAux out attempt remaining delay).attemptsUsed - 1) ∧
          (isTransientOutcome e = false ∨
            (retryAux out attempt remaining delay).attemptsUsed = remaining)) ∧
      (∀ j, attempt ≤ j →
        j + 1 < attempt + (retryAux out attempt remaining delay).attemptsUsed →
        isTransientOutcome (out j) = true) ∧
      ((∀ j, attempt ≤ j → j < attempt + remaining →
          isTransientOutcome (out j) = true) → 1 ≤ remaining →
        (retryAux out attempt remaining delay).attemptsUsed = remaining ∧
          (retryAux out attempt remaining delay).result
            = .error (out (attempt + remaining - 1))) := by
  induction remaining with
  | zero =>
    intro attempt delay
    rw [retryAux_zero]
    refine ⟨Nat.le_refl 0, ?_, by simp, ?_, ?_, ?_⟩
    · intro h
      omega
    · intro e he
      simp at he
    · intro j hj hlt
      have hlt' : j + 1 < attempt + 0 := hlt
      omega
    · intro _ h
      omega
  | succ R ih =>
    intro attempt delay
    by_cases hs : out attempt = SheetOutcome.success
    · have htr : retryAux out attempt (R + 1) delay = ⟨.ok (), 1, []⟩ := by
        rw [retryAux_succ, if_pos hs]
      rw [htr]
      refine ⟨?_, ?_, by simp, ?_, ?_, ?_⟩
      · show 1 ≤ R + 1
        omega
      · intro _
        exact Nat.le_refl 1
      · intro e he
        simp at he
      · intro j hj hlt
        have hlt' : j + 1 < attempt + 1 := hlt
        omega
      · intro hall _
        have htt := hall attempt (Nat.le_refl _) (by omega)
        rw [hs] at htt
        simp [isTransientOutcome] at htt
    · by_cases ht : (isTransientOutcome (out attempt) && R != 0) = true
      · have htr : retryAux out attempt (R + 1) delay =
            ⟨(retryAux out (attempt + 1) R (delay * 2)).result,
             (retryAux out (attempt + 1) R (delay * 2)).attemptsUsed + 1,
             delay :: (retryAux out (attempt + 1) R (delay * 2)).sleeps⟩ := by
          rw [retryAux_succ, if_neg hs, if_pos ht]
        obtain ⟨htrans, hR⟩ :
            isTransientOutcome (out attempt) = true ∧ R ≠ 0 := by simpa using ht
        obtain ⟨ih1, ih2, ih3, ih4, ih5, ih6⟩ := ih (attempt + 1) (delay * 2)
        have hatt1 : 1 ≤ (retryAux out (attempt + 1) R (delay * 2)).attemptsUsed :=
          ih2 (by omega)
        rw [htr]
        refine ⟨?_, ?_, ?_, ?_, ?_, ?_⟩
        · show (retryAux out (attempt + 1) R (delay * 2)).attemptsUsed + 1 ≤ R + 1
          omega
        · intro _
          show 1 ≤ (retryAux out (attempt + 1) R (delay * 2)).attemptsUsed + 1
          omega
        · show delay :: (retryAux out (attempt + 1) R (delay * 2)).sleeps =
            (List.range ((retryAux out (attempt + 1) R (delay * 2)).attemptsUsed + 1 - 1)).map
              (fun i => delay * 2 ^ i)
          rw [ih3]
          obtain ⟨k, hk⟩ :
              ∃ k, (retryAux out (attempt + 1) R (delay * 2)).attemptsUsed = k + 1 :=
            ⟨(retryAux out (attempt + 1) R (delay * 2)).attemptsUsed - 1, by omega⟩
          rw [hk]
          simp only [Nat.add_sub_cancel]
          rw [List.range_succ_eq_map, List.map_cons, List.map_map]
          congr 1
          · rw [pow_zero, mul_one]
          · refine List.map_congr_left ?_
            intro i _
            show delay * 2 * 2 ^ i = delay * 2 ^ (i + 1)
            rw [pow_succ]
            ring
        · intro e he
          have he' : (retryAux out (attempt + 1) R (delay * 2)).result = .error e := he
          obtain ⟨h1, h2⟩ := ih4 e he'
          refine ⟨?_, ?_⟩
          · rw [h1]
            congr 1
            show attempt + 1 + (retryAux out (attempt + 1) R (delay * 2)).attemptsUsed - 1
              = attempt + ((retryAux out (attempt + 1) R (delay * 2)).attemptsUsed + 1) - 1
            omega
          · rcases h2 with h2 | h2
            · exact Or.inl h2
            · refine Or.inr ?_
              show (retryAux out (attempt + 1) R (delay * 2)).attemptsUsed + 1 = R + 1
              omega
        · intro j hj hlt
          have hlt' :
              j + 1 < attempt +
                ((retryAux out (attempt + 1) R (delay * 2)).attemptsUsed + 1) := hlt
          by_cases hje : j = attempt
          · rw [hje]
            exact htrans
          · exact ih5 j (by omega) (by omega)
        · intro hall _
          obtain ⟨g1, g2⟩ := ih6 (fun j hj hlt => hall j (by omega) (by omega)) (by omega)
          refine ⟨?_, ?_⟩
          · show (retryAux out (attempt + 1) R (delay * 2)).attemptsUsed + 1 = R + 1
            omega
          · show (retryAux out (attempt + 1) R (delay * 2)).result
              = .error (out (attempt + (R + 1) - 1))
            rw [g2, show attempt + 1 + R - 1 = attempt + (R + 1) - 1 from by omega]
      · have htr : retryAux out attempt (R + 1) delay = ⟨.error (out attempt), 1, []⟩ := by
          rw [retryAux_succ, if_neg hs, if_neg ht]
        rw [htr]
        refine ⟨?_, ?_, by simp, ?_, ?_, ?_⟩
        · show 1 ≤ R + 1
          omega
        · intro _
          exact Nat.le_refl 1
        · intro e he
          have he' : (Except.error (out attempt) : Except SheetOutcome Unit)
              = .error e := he
          have hee : out attempt = e := by
            injection he'
          refine ⟨?_, ?_⟩
          · rw [← hee, show attempt + 1 - 1 = attempt from by omega]
          · by_cases htt : isTransientOutcome (out attempt) = true
            · have hR0 : R = 0 := by
                by_contra hRn
                refine ht ?_
                rw [htt, Bool.true_and]
                simpa using hRn
              right
              show (1 : Nat) = R + 1
              omega
            · left
              rw [← hee]
              cases hb : isTransientOutcome (out attempt) with
              | true => exact absurd hb htt
              | false => rfl
        · intro j hj hlt
          have hlt' : j + 1 < attempt + 1 := hlt
          omega
        · intro hall _
          have htt := hall attempt (Nat.le_refl _) (by omega)
          have hR0 : R = 0 := by
            by_contra hRn
            refine ht ?_
            rw [htt, Bool.true_and]
            simpa using hRn
          refine ⟨?_, ?_⟩
          · show (1 : Nat) = R + 1
            omega
          · show (Except.error (out attempt) : Except SheetOutcome Unit)
              = .error (out (attempt + (R + 1) - 1))
            rw [show attempt + (R + 1) - 1 = attempt from by omega]

/-- C9: `retry_batch_update` makes at most `max_retries` attempts; the
delays slept form the exponential sequence `d, 2d, 4d, ...`; whenever the
call raises, the raised error is the outcome of the last attempt made,
and that attempt was either a non-transient error (raised immediately)
or the final permitted attempt (error propagated after exhausting
retries); every earlier attempt failed transiently (HTTP 429/5xx or a
timeout); and if every attempt fails transiently the loop runs the full
`max_retries` attempts and propagates the last error to the caller. -/
theorem C9_retry_transient_with_backoff (out : Nat → SheetOutcome) (m : Nat) (d : ℚ) :
    ((retry_batch_update out m d).attemptsUsed ≤ m) ∧
    ((retry_batch_update out m d).sleeps =
      (List.range ((retry_batch_update out m d).attemptsUsed - 1)).map
        (fun i => d * 2 ^ i)) ∧
    (∀ e, (retry_batch_update out m d).result = .error e →
      e = out ((retry_batch_update out m d).attemptsUsed) ∧
        (isTransientOutcome e = false ∨
          (retry_batch_update out m d).attemptsUsed = m)) ∧
    (∀ j, 1 ≤ j → j < (retry_batch_update out m d).attemptsUsed →
      isTransientOutcome (out j) = true) ∧
    ((∀ j, 1 ≤ j → j ≤ m → isTransientOutcome (out j) = true) → 1 ≤ m →
      (retry_batch_update out m d).attemptsUsed = m ∧
        (retry_batch_update out m d).result = .error (out m)) := by
  unfold retry_batch_update
  obtain ⟨h1, _, h3, h4, h5, h6⟩ := retryAux_spec out m 1 d
  refine ⟨h1, h3, ?_, ?_, ?_⟩
  · intro e he
    obtain ⟨g1, g2⟩ := h4 e he
    refine ⟨?_, g2⟩
    rw [g1, show 1 + (retryAux out 1 m d).attemptsUsed - 1
      = (retryAux out 1 m d).attemptsUsed from by omega]
  · intro j hj hlt
    exact h5 j hj (by omega)
  · intro hall hm
    obtain ⟨g1, g2⟩ := h6 (fun j hj hlt => hall j hj (by omega)) hm
    exact ⟨g1, by rw [g2, show 1 + m - 1 = m from by omega]⟩

/-- C9, witness: three attempts all answering HTTP 503 exhaust the
retries — two sleeps of 2 and 4 seconds — and the error propagates. -/
theorem C9_witness :
    (retry_batch_update (fun _ => SheetOutcome.httpError (some 503)) 3 2).attemptsUsed = 3 ∧
    (retry_batch_update (fun _ => SheetOutcome.httpError (some 503)) 3 2).result
      = .error (SheetOutcome.httpError (some 503)) :=
  (C9_retry_transient_with_backoff (fun _ => SheetOutcome.httpError (some 503)) 3 2).2.2.2.2
    (fun j _ _ => by decide) (by omega)

/-- C10: the keep/reject decision of the cleaning filter is invariant
under letter-case changes — records whose title, description and company
agree up to case receive the same decision — and a blocklist keyword
configured with capital letters matches occurrences of any casing,
because both the keyword lists and the record text are lowercased before
comparison. -/
theorem C10_case_insensitive_filtering :
    (∀ r q : JobRecord, lowerStr r.title = lowerStr q.title →
      lowerStr r.description = lowerStr q.description →
      lowerStr r.company = lowerStr q.company →
      keepDecision r = keepDecision q) ∧
    (∀ kw : String, kw ∈ SPAM_KEYWORDS → ∀ occ pre suf : Str,
      lowerStr occ = lowerStr (strOf kw) →
      contains_spam_title (pre ++ occ ++ suf) = true) := by
  constructor
  · intro r q ht hd hc
    show (!(contains_spam_title (stripStr r.title) ||
        contains_spam_description r.description || company_is_spam r.company)) =
      (!(contains_spam_title (stripStr q.title) ||
        contains_spam_description q.description || company_is_spam q.company))
    have h1 : contains_spam_title (stripStr r.title)
        = contains_spam_title (stripStr q.title) := by
      apply contains_spam_title_congr
      rw [← stripStr_lowerStr, ← stripStr_lowerStr, ht]
    rw [h1, contains_spam_description_congr hd, company_is_spam_congr hc]
  · intro kw hkw occ pre suf hocc
    unfold contains_spam_title
    refine List.any_eq_true.mpr ⟨lowerStr (strOf kw), ?_, ?_⟩
    · exact List.mem_map_of_mem _ hkw
    · rw [lowerStr_append, lowerStr_append, hocc]
      exact substrIn_append_middle _ _ _

/-- A record with mixed-case fields. -/
def recCaseA : JobRecord :=
  ⟨strOf "Data Engineer", strOf "Build Pipelines", strOf "Shopify",
   strOf "https://jobs/case", some 1⟩

/-- The same record with the text fields' casing changed. -/
def recCaseB : JobRecord :=
  ⟨strOf "DATA ENGINEER", strOf "build pipelines", strOf "SHOPIFY",
   strOf "https://jobs/case", some 1⟩

/-- C10, witness: the case-invariance applied to two concrete case
variants of one record, and the capitalized blocklist entry
"Java Developer" matching an upper-case occurrence. -/
theorem C10_witness :
    keepDecision recCaseA = keepDecision recCaseB ∧
    contains_spam_title (strOf "JAVA DEVELOPER" ++ strOf " (remote)") = true :=
  ⟨C10_case_insensitive_filtering.1 recCaseA recCaseB (by decide) (by decide) (by decide),
   C10_case_insensitive_filtering.2 "Java Developer" (by decide)
     (strOf "JAVA DEVELOPER") [] (strOf " (remote)") (by decide)⟩

end JobHunt
